import Mathlib

set_option maxRecDepth 100000

/-!
Verification development for the veterans-diary-map event pipeline.

The definitions below are a shallow embedding of the JavaScript source in
`src/script.js` (class `EventMap`) and `src/js/utils.js`.  Strings are
modelled as `List Char` (JS strings are sequences of UTF-16 code units;
all data relevant here is ASCII), JS `number` arithmetic on the small
integers and decimal constants appearing in the source is modelled over
`ℚ`, bitwise 32-bit integer operations are modelled over `ℤ` with explicit
wrapping, and `async` functions that perform network I/O take the outcome
of that I/O as an explicit argument.  Calendar dates are modelled as `ℤ`
day numbers and instants as `ℤ` timestamps (date-only values compare the
day number, mirroring `setHours(0,0,0,0)`).
-/

namespace EventMap

/-- Whitespace test, modelling the `\s` character class of the JS regexes
for the characters that can occur in the data (ASCII whitespace). -/
def isSpaceC (c : Char) : Bool :=
  c = ' ' || c = '\t' || c = '\n' || c = '\r'

/-- Letter test for the case-insensitive regexes (`[A-Z]` with the `i` flag). -/
def isLetterC (c : Char) : Bool :=
  ('A' ≤ c && c ≤ 'Z') || ('a' ≤ c && c ≤ 'z')

/-- Digit test (`[0-9]`). -/
def isDigitC (c : Char) : Bool :=
  '0' ≤ c && c ≤ '9'

/-- Alphanumeric test for the case-insensitive `[A-Z0-9]` with the `i` flag. -/
def isAlnumC (c : Char) : Bool :=
  isLetterC c || isDigitC c

/-- Uppercase-letter test (`[A-Z]` without the `i` flag). -/
def isUpperC (c : Char) : Bool :=
  'A' ≤ c && c ≤ 'Z'

/-- Uppercase-or-digit test (`[A-Z0-9]` without the `i` flag). -/
def isUpAlnumC (c : Char) : Bool :=
  isUpperC c || isDigitC c

/-- ASCII lowering of one character, modelling `String.toLowerCase` on the
ASCII data that occurs in the feed. -/
def toLowerC (c : Char) : Char :=
  if 'A' ≤ c && c ≤ 'Z' then Char.ofNat (c.toNat + 32) else c

/-- ASCII raising of one character, modelling `String.toUpperCase`. -/
def toUpperC (c : Char) : Char :=
  if 'a' ≤ c && c ≤ 'z' then Char.ofNat (c.toNat - 32) else c

/-- Lowercase a string (`text.toLowerCase()`). -/
def toLowerL (l : List Char) : List Char := l.map toLowerC

/-- Uppercase a string (`text.toUpperCase()`). -/
def toUpperL (l : List Char) : List Char := l.map toUpperC

/-- Model of `s.replace(/\s+/g, " ")`: every maximal run of whitespace
collapses to a single space. -/
def collapseWs : List Char → List Char
  | [] => []
  | [c] => if isSpaceC c then [' '] else [c]
  | c :: d :: rest =>
    if isSpaceC c then
      (if isSpaceC d then collapseWs (d :: rest) else ' ' :: collapseWs (d :: rest))
    else c :: collapseWs (d :: rest)

/-- Model of `s.replace(/\s+/g, "")` and `s.replace(/\s/g, "")`. -/
def removeWs (l : List Char) : List Char := l.filter (fun c => !isSpaceC c)

/-- Drop trailing whitespace (the right half of `String.trim`). -/
def dropTrailWs : List Char → List Char
  | [] => []
  | c :: rest =>
    match dropTrailWs rest with
    | [] => if isSpaceC c then [] else [c]
    | r => c :: r

/-- Model of `String.trim`: drop leading and trailing whitespace. -/
def trimWs (l : List Char) : List Char := dropTrailWs (l.dropWhile isSpaceC)

/-- Does the first list start the second? (used to scan for substrings). -/
def begins : List Char → List Char → Bool
  | [], _ => true
  | _ :: _, [] => false
  | a :: as, b :: bs => a == b && begins as bs

/-- Model of `haystack.includes(needle)`. -/
def occursIn (needle : List Char) : List Char → Bool
  | [] => needle.isEmpty
  | c :: rest => begins needle (c :: rest) || occursIn needle rest

/-- Scanner for the first `>` of the remainder of a tag: on success returns
everything after that `>`.  This is the shape of a `<[^>]*>` match: the
greedy `[^>]*` cannot cross a `>`, so the match runs to the first `>`. -/
def dropThroughGt : List Char → Option (List Char)
  | [] => none
  | c :: rest => if c = '>' then some rest else dropThroughGt rest

/-- Fuel-driven model of `s.replace(/<[^>]*>/g, "")`: at a `<` that is
followed by some later `>`, the match from the `<` through the first
subsequent `>` is removed and scanning resumes after it; a `<` with no
later `>` does not match and is kept.  Each step consumes at least one
character, so fuel equal to the length of the input is always enough. -/
def stripTagsGo : Nat → List Char → List Char
  | 0, l => l
  | _ + 1, [] => []
  | fuel + 1, c :: rest =>
    if c = '<' then
      match dropThroughGt rest with
      | some rest2 => stripTagsGo fuel rest2
      | none => c :: stripTagsGo fuel rest
    else c :: stripTagsGo fuel rest

/-- `s.replace(/<[^>]*>/g, "")` (src/script.js:176). -/
def stripTags (l : List Char) : List Char := stripTagsGo l.length l

/-- Fuel-driven model of global string replacement `s.replace(/pat/g, rep)`
for a plain nonempty pattern: scan left to right, replacing each
non-overlapping occurrence.  Fuel equal to the input length suffices. -/
def replaceAllGo : Nat → List Char → List Char → List Char → List Char
  | 0, _, _, l => l
  | _ + 1, _, _, [] => []
  | fuel + 1, pat, rep, c :: rest =>
    if begins pat (c :: rest) then
      rep ++ replaceAllGo fuel pat rep ((c :: rest).drop pat.length)
    else c :: replaceAllGo fuel pat rep rest

/-- Global replacement of one plain pattern. -/
def replaceAll (pat rep l : List Char) : List Char := replaceAllGo l.length pat rep l

/-- The five entity decodings of `sanitiseText` in source order
(src/script.js:177-181): `&lt;` `&gt;` `&amp;` `&quot;` `&#39;`. -/
def decodeEntities (l : List Char) : List Char :=
  replaceAll ("&#39;".toList) [Char.ofNat 39]
    (replaceAll ("&quot;".toList) ['"']
      (replaceAll ("&amp;".toList) ['&']
        (replaceAll ("&gt;".toList) ['>']
          (replaceAll ("&lt;".toList) ['<'] l))))

/-- `EventMap.sanitiseText` (src/script.js:167-183).  The method first looks
for `this.utils.sanitiseText`, but the utils module exports the function
under the name `sanitizeText` (src/js/utils.js:167-176), so that lookup is
always `undefined` and the fallback body runs: strip `<[^>]*>` matches,
decode the five entities, trim.  A null/undefined argument returns `""`;
with strings as `List Char` the empty list covers that case. -/
def sanitiseText (text : List Char) : List Char :=
  trimWs (decodeEntities (stripTags text))

/-- Does the string contain a substring matched by `/<[^>]*>/`, i.e. a `<`
with some later `>`?  This is the "contains a markup tag" predicate. -/
def containsTag : List Char → Bool
  | [] => false
  | c :: rest => (c = '<' && rest.any (fun d => d = '>')) || containsTag rest

/-- A latitude/longitude pair, the `{lat, lng}` objects of the source. -/
structure Coord where
  lat : ℚ
  lng : ℚ
deriving DecidableEq, Repr

/-- JS `ToInt32`: the coercion applied by `hash & hash` (and by `<<`),
wrapping to the signed 32-bit range. -/
def jsToInt32 (n : ℤ) : ℤ :=
  let m := Int.emod n 4294967296
  if m < 2147483648 then m else m - 4294967296

/-- The rolling hash of `generateUniqueCoordinates` (src/script.js:421-426):
`hash = (hash << 5) - hash + charCode; hash = hash & hash`.  The shift
coerces to 32 bits before the subtraction; the `& hash` coerces the exact
intermediate (which stays well inside the float-exact range) to 32 bits. -/
def jsHash (l : List Char) : ℤ :=
  l.foldl (fun h c => jsToInt32 (jsToInt32 (h * 32) - h + (c.toNat : ℤ))) 0

/-- JS remainder `a % b` for `b > 0`: truncated division, so the result
carries the sign of the dividend (unlike Lean's euclidean `%`). -/
def jsRem (a b : ℤ) : ℤ :=
  if 0 ≤ a then Int.emod a b else -(Int.emod (-a) b)

/-- JS arithmetic right shift by 10 of a 32-bit value: floor division. -/
def jsShr10 (a : ℤ) : ℤ := Int.fdiv a 1024

/-- `EventMap.generateUniqueCoordinates` (src/script.js:419-437): hash the
location string and derive lat/lng offsets
`((hash % 1000) / 1000 - 0.5) * 0.008` and
`(((hash >> 10) % 1000) / 1000 - 0.5) * 0.008` added to the base. -/
def generateUniqueCoordinates (location : List Char) (baseCoords : Coord) : Coord :=
  let hash := jsHash location
  let offsetRange : ℚ := 8 / 1000
  let latOffset : ℚ := ((jsRem hash 1000 : ℚ) / 1000 - 1 / 2) * offsetRange
  let lngOffset : ℚ := ((jsRem (jsShr10 hash) 1000 : ℚ) / 1000 - 1 / 2) * offsetRange
  ⟨baseCoords.lat + latOffset, baseCoords.lng + lngOffset⟩

/-- The recognised configuration (`window.CALENDAR_CONFIG`) fields used by
the location resolver.  `geocodingApiKey = none` models a missing or empty
`GEOCODING_API_KEY` (both are falsy in the JS guard). -/
structure Config where
  enableGeocoding : Bool
  geocodingApiKey : Option (List Char)
  defaultRegion : Option Coord

/-- Outcome of the `fetch` performed by `geocodeWithGoogle`: the promise
rejects (network error), resolves with `!response.ok`, or resolves with a
parsed body carrying `status` and `results`. -/
inductive GeoFetch where
  | netError
  | httpError (code : Nat)
  | body (status : List Char) (results : List Coord)
deriving DecidableEq

/-- The non-OK status dispatch of `geocodeWithGoogle`
(src/script.js:402-416): `REQUEST_DENIED`, `OVER_QUERY_LIMIT` and
`ZERO_RESULTS` each throw their own error, any other status throws the
generic one. -/
def geoStatusError (status : List Char) : List Char :=
  if status = ("REQUEST_DENIED".toList) then "API key issue".toList
  else if status = ("OVER_QUERY_LIMIT".toList) then "Over query limit".toList
  else if status = ("ZERO_RESULTS".toList) then "No results found".toList
  else "Google API error".toList

/-- `EventMap.geocodeWithGoogle` (src/script.js:379-417), with the fetch
outcome explicit.  Returns the first result when `status === "OK"` and the
result list is nonempty; every other outcome throws (`Except.error`). -/
def geocodeWithGoogle (fetch : GeoFetch) : Except (List Char) Coord :=
  match fetch with
  | .netError => .error ("network error".toList)
  | .httpError _ => .error ("Google Geocoding API HTTP error".toList)
  | .body status results =>
    match results with
    | r :: _ => if status = ("OK".toList) then .ok r else .error (geoStatusError status)
    | [] => .error (geoStatusError status)

/-- The guard of `getCoordinatesForLocation` (src/script.js:348-352):
geocoding is attempted only when `ENABLE_GEOCODING` is set and
`GEOCODING_API_KEY` is truthy and not the placeholder. -/
def geocodingConfigured (cfg : Config) : Bool :=
  cfg.enableGeocoding &&
    match cfg.geocodingApiKey with
    | none => false
    | some k => !k.isEmpty && !(k = ("your-google-geocoding-api-key-here".toList))

/-- `config?.DEFAULT_REGION || { lat: 54.9783, lng: -1.6178 }`
(src/script.js:371-374). -/
def defaultRegionOf (cfg : Config) : Coord :=
  cfg.defaultRegion.getD ⟨54.9783, -1.6178⟩

/-- `EventMap.getCoordinatesForLocation` (src/script.js:345-376): when
geocoding is configured, try `geocodeWithGoogle` and return its value on
success; any thrown error is caught (logged only).  In every other case —
geocoding disabled, unconfigured, or failed — fall through to the
deterministic hash fallback on the default region.  The function contains
no known-location table lookup: the network call, when configured, is the
first and only non-fallback step. -/
def getCoordinatesForLocation (cfg : Config) (fetch : GeoFetch) (location : List Char) : Coord :=
  if geocodingConfigured cfg then
    match geocodeWithGoogle fetch with
    | .ok c => c
    | .error _ => generateUniqueCoordinates location (defaultRegionOf cfg)
  else
    generateUniqueCoordinates location (defaultRegionOf cfg)

/-- Result of `EventMap.categorizeEvent`: the matched tag list and the
primary tag. -/
structure Categorization where
  tags : List (List Char)
  primary : List Char
deriving DecidableEq, Repr

/-- `EventMap.categorizeEvent` (src/script.js:474-568): evaluate the seven
keyword rules in source order on `titleLower + " " + descLower` (plus
`descLower` alone where the source consults it), pushing a tag for each
rule that fires; the primary tag is the first pushed tag, or `"other"`. -/
def categorizeEvent (title description : List Char) : Categorization :=
  let titleLower := toLowerL title
  let descLower := toLowerL description
  let combined := titleLower ++ (" ".toList) ++ descLower
  let t0 : List (List Char) := []
  let t1 :=
    if occursIn ("drop in".toList) descLower || occursIn ("drop-in".toList) descLower ||
        occursIn ("drop in".toList) combined || occursIn ("drop-in".toList) combined then
      t0 ++ ["drop-in".toList] else t0
  let t2 :=
    if occursIn ("support".toList) combined || occursIn ("counselling".toList) combined ||
        occursIn ("therapy".toList) combined || occursIn ("help".toList) combined ||
        occursIn ("advice".toList) combined || occursIn ("welfare".toList) combined then
      t1 ++ ["support".toList] else t1
  let t3 :=
    if occursIn ("breakfast club".toList) combined ||
        (occursIn ("breakfast".toList) combined && !occursIn ("clay pigeon".toList) combined) ||
        (occursIn ("naafi break".toList) combined && !occursIn ("drop in".toList) descLower) then
      t2 ++ ["breakfast-club".toList] else t2
  let t4 :=
    if occursIn ("meeting".toList) combined || occursIn ("branch meeting".toList) combined ||
        occursIn ("association".toList) combined || occursIn ("rbl".toList) combined ||
        occursIn ("royal british legion".toList) combined || occursIn ("dli".toList) combined then
      t3 ++ ["meeting".toList] else t3
  let t5 :=
    if occursIn ("workshop".toList) combined || occursIn ("training".toList) combined ||
        occursIn ("course".toList) combined || occursIn ("seminar".toList) combined then
      t4 ++ ["workshop".toList] else t4
  let t6 :=
    if occursIn ("social".toList) combined || occursIn ("mixer".toList) combined ||
        occursIn ("party".toList) combined || occursIn ("celebration".toList) combined then
      t5 ++ ["social".toList] else t5
  let t7 :=
    if occursIn ("clay pigeon".toList) combined || occursIn ("shooting".toList) combined ||
        occursIn ("sport".toList) titleLower || occursIn ("football".toList) combined ||
        occursIn ("rugby".toList) combined || occursIn ("sailing".toList) combined ||
        occursIn ("fishing".toList) combined || occursIn ("golf".toList) combined ||
        occursIn ("cycling".toList) combined || occursIn ("walking".toList) combined ||
        occursIn ("hiking".toList) combined || occursIn ("swimming".toList) combined ||
        occursIn ("offshore sailing".toList) combined then
      t6 ++ ["sport".toList] else t6
  { tags := t7
    primary := match t7 with | [] => "other".toList | p :: _ => p }

/-- Tail `[0-9][A-Z]{2}$` of the case-insensitive full-postcode regex. -/
def pcTail3 : List Char → Bool
  | [d, a, b] => isDigitC d && isLetterC a && isLetterC b
  | _ => false

/-- Tail `\s?[0-9][A-Z]{2}$` (optional single whitespace). -/
def pcOptSpaceTail (l : List Char) : Bool :=
  pcTail3 l ||
    match l with
    | s :: rest => isSpaceC s && pcTail3 rest
    | [] => false

/-- Tail `[A-Z0-9]?\s?[0-9][A-Z]{2}$` (optional alphanumeric, then the rest). -/
def pcAfterDigit (l : List Char) : Bool :=
  pcOptSpaceTail l ||
    match l with
    | c :: rest => isAlnumC c && pcOptSpaceTail rest
    | [] => false

/-- The full UK postcode regex of `isPostcode` (src/script.js:1556):
`/^[A-Z]{1,2}[0-9][A-Z0-9]?\s?[0-9][A-Z]{2}$/i`, expressed by alternation
over the one- and two-letter area codes. -/
def pcFull : List Char → Bool
  | [] => false
  | a :: rest =>
    isLetterC a &&
      ((match rest with
        | d :: r2 => isDigitC d && pcAfterDigit r2
        | [] => false) ||
       (match rest with
        | b :: d :: r3 => isLetterC b && isDigitC d && pcAfterDigit r3
        | _ => false))

/-- Tail `[0-9][A-Z0-9]?$` of the outward-code-only regex. -/
def pcOutwardEnd : List Char → Bool
  | [d] => isDigitC d
  | [d, c] => isDigitC d && isAlnumC c
  | _ => false

/-- The partial (outward-code-only) postcode regex of `isPostcode`
(src/script.js:1559): `/^[A-Z]{1,2}[0-9][A-Z0-9]?$/i`. -/
def pcOutward : List Char → Bool
  | [] => false
  | a :: rest =>
    isLetterC a &&
      (pcOutwardEnd rest ||
       match rest with
       | b :: r2 => isLetterC b && pcOutwardEnd r2
       | [] => false)

/-- `EventMap.isPostcode` (src/script.js:1554-1567): the full pattern is
tested on the query with whitespace collapsed to single spaces and
trimmed, the outward pattern on the query with all whitespace removed. -/
def isPostcode (searchQuery : List Char) : Bool :=
  pcFull (trimWs (collapseWs searchQuery)) || pcOutward (trimWs (removeWs searchQuery))

/-- Tail `[0-9][A-Z]{2}$` of the case-sensitive patterns in
`geocodePostcode` (the input there is uppercased first). -/
def pcTail3U : List Char → Bool
  | [d, a, b] => isDigitC d && isUpperC a && isUpperC b
  | _ => false

/-- Tail `\s[0-9][A-Z]{2}$` (mandatory single whitespace). -/
def pcSpacedTail : List Char → Bool
  | s :: rest => isSpaceC s && pcTail3U rest
  | [] => false

/-- Tail `[A-Z0-9]?\s[0-9][A-Z]{2}$`. -/
def pcAfterDigitSpaced (l : List Char) : Bool :=
  pcSpacedTail l ||
    match l with
    | c :: rest => isUpAlnumC c && pcSpacedTail rest
    | [] => false

/-- `/^[A-Z]{1,2}[0-9][A-Z0-9]?\s[0-9][A-Z]{2}$/` (src/script.js:1635). -/
def pcFullSpaced : List Char → Bool
  | [] => false
  | a :: rest =>
    isUpperC a &&
      ((match rest with
        | d :: r2 => isDigitC d && pcAfterDigitSpaced r2
        | [] => false) ||
       (match rest with
        | b :: d :: r3 => isUpperC b && isDigitC d && pcAfterDigitSpaced r3
        | _ => false))

/-- Tail `[A-Z0-9]?[0-9][A-Z]{2}$`. -/
def pcAfterDigitNoSpace (l : List Char) : Bool :=
  pcTail3U l ||
    match l with
    | c :: rest => isUpAlnumC c && pcTail3U rest
    | [] => false

/-- `/^[A-Z]{1,2}[0-9][A-Z0-9]?[0-9][A-Z]{2}$/` (src/script.js:1636),
tested on the whitespace-free form. -/
def pcFullNoSpace : List Char → Bool
  | [] => false
  | a :: rest =>
    isUpperC a &&
      ((match rest with
        | d :: r2 => isDigitC d && pcAfterDigitNoSpace r2
        | [] => false) ||
       (match rest with
        | b :: d :: r3 => isUpperC b && isDigitC d && pcAfterDigitNoSpace r3
        | _ => false))

/-- The search origin returned by `geocodePostcode`: coordinates, radius in
km, and the partial-postcode flag (`isPartial` in the source; the field is
named `outwardOnly` here because the source word is reserved in Lean). -/
structure SearchCoords where
  lat : ℚ
  lng : ℚ
  radius : ℚ
  outwardOnly : Bool
deriving DecidableEq, Repr

/-- Scoping fact about `geocodePostcode` and `geocodePlaceName`
(src/script.js:1577, 1644): their guard reads the bare identifier
`config`, but no script in the page ever declares a binding named `config`
(the configuration object is `window.CALENDAR_CONFIG`, and only
`getCoordinatesForLocation` introduces a local `const config`).  So
`typeof config !== "undefined"` is false there and the Google branch never
runs. -/
def configGlobalInScope : Bool := false

/-- `EventMap.geocodePostcode` (src/script.js:1629-1694), with the two
provider outcomes explicit (`none` models a failed fetch, a non-OK
response, or an empty result list — every such case falls through).  The
input is normalised (`replace(/\s+/g, " ").trim().toUpperCase()`), the
partial flag is computed from the two case-sensitive full-postcode
patterns, and `searchRadius` is initialised to 15 and never changed.  On
total failure the thrown error is caught and `null` (`none`) returned. -/
def geocodePostcode (google nominatim : Option Coord) (postcode : List Char) :
    Option SearchCoords :=
  let cleanPostcode := toUpperL (trimWs (collapseWs postcode))
  let outwardOnly := !pcFullSpaced cleanPostcode && !pcFullNoSpace (removeWs cleanPostcode)
  let searchRadius : ℚ := 15
  let fromGoogle : Option SearchCoords :=
    if configGlobalInScope then
      google.map (fun c => ⟨c.lat, c.lng, searchRadius, outwardOnly⟩)
    else none
  match fromGoogle with
  | some r => some r
  | none =>
    match nominatim with
    | some c => some ⟨c.lat, c.lng, searchRadius, outwardOnly⟩
    | none => none

/-- The transient search fields written together by `filterEvents`
(src/script.js:1463-1465): `_searchDistance`, `_searchRadius`,
`_isPartialPostcode`.  They are always assigned as a group, so a single
optional record models their presence. -/
structure Ann where
  distance : ℚ
  radius : ℚ
  outwardOnly : Bool
deriving DecidableEq, Repr

/-- The canonical event record built by the normaliser, plus the transient
search fields. -/
structure Event where
  id : ℤ
  title : List Char
  description : List Char
  location : List Char
  category : List Char
  categories : List (List Char)
  date : ℤ
  lat : ℚ
  lng : ℚ
  isElapsed : Bool := false
  ann : Option Ann := none
deriving DecidableEq, Repr

/-- The plain substring search of `filterEvents` (src/script.js:1444-1447)
over lowercased title, description and location. -/
def textMatches (query : List Char) (ev : Event) : Bool :=
  occursIn query (toLowerL ev.title) || occursIn query (toLowerL ev.description) ||
    occursIn query (toLowerL ev.location)

/-- `searchCoords.radius || 50` (src/script.js:1459): a falsy (zero) radius
is replaced by 50. -/
def radiusOr50 (sc : SearchCoords) : ℚ :=
  if sc.radius = 0 then 50 else sc.radius

/-- The sort key of the distance sort (src/script.js:1487-1488):
`a._searchDistance || 0`, i.e. the recorded distance, with 0 substituted
when the field is absent. -/
def annKey (ev : Event) : ℚ :=
  match ev.ann with
  | some a => a.distance
  | none => 0

/-- Insertion step of a stable ascending sort by a rational key, modelling
`Array.prototype.sort` with the numeric comparator of the source (stable
per the ECMAScript specification). -/
def sortIns (key : α → ℚ) (a : α) : List α → List α
  | [] => [a]
  | b :: l => if key b < key a then b :: sortIns key a l else a :: b :: l

/-- Stable ascending sort by a rational key. -/
def sortByKey (key : α → ℚ) : List α → List α
  | [] => []
  | a :: l => sortIns key a (sortByKey key l)

/-- The quick date filter state (`currentDateFilter`). -/
inductive QuickFilter where
  | today
  | week
  | month
  | all
deriving DecidableEq

/-- `EventMap.filterEventsByDate` (src/script.js:1329-1362) over day
numbers: `today` keeps events dated today, `week` keeps dates in
`[today, today + 7]`, `month` keeps dates in `[today, monthFromNow]` where
`monthFromNow` is the same day of the next calendar month (passed in,
since its value depends on calendar month lengths), `all` keeps all. -/
def filterEventsByDate (qf : QuickFilter) (today monthFromNow : ℤ)
    (events : List Event) : List Event :=
  match qf with
  | .all => events
  | .today => events.filter (fun ev => ev.date = today)
  | .week => events.filter (fun ev => today ≤ ev.date && ev.date ≤ today + 7)
  | .month => events.filter (fun ev => today ≤ ev.date && ev.date ≤ monthFromNow)

/-- The per-event body of the `filter` callback in `filterEvents`
(src/script.js:1438-1479), returning the event (annotated when the
distance branch ran) and its inclusion flag.  `sc` is the effective search
origin: the awaited `geocodePostcode` result when the query is a nonempty
postcode, `none` otherwise, so `match sc` is exactly the source guard
`isPostcodeSearch && searchCoords`.  `dist` abstracts
`calculateDistance` (the haversine formula over floating-point
trigonometry, src/script.js:1535-1547). -/
def filterStep (dist : ℚ → ℚ → ℚ → ℚ → ℚ) (query : List Char) (sc : Option SearchCoords)
    (catF : List Char) (dateF : Option ℤ) (ev : Event) : Event × Bool :=
  let matchesCategory :=
    catF.isEmpty || ev.category = catF || ev.categories.contains catF
  let matchesDate :=
    match dateF with
    | none => true
    | some d => ev.date = d
  if query.isEmpty then (ev, matchesCategory && matchesDate)
  else if textMatches query ev then (ev, matchesCategory && matchesDate)
  else
    match sc with
    | some s =>
      let d := dist s.lat s.lng ev.lat ev.lng
      let r := radiusOr50 s
      ({ ev with ann := some ⟨d, r, s.outwardOnly⟩ }, decide (d ≤ r) && matchesCategory && matchesDate)
    | none => (ev, false)

/-- `EventMap.filterEvents` (src/script.js:1422-1499).  The search input is
lowercased and trimmed; when it is a nonempty postcode the awaited
`geocodePostcode` result (`resolve`) becomes the search origin.  The
filter pass annotates events in place (first component: the updated
`this.events`), the surviving events pass the quick date filter, and when
a postcode search with an origin is active the result is sorted ascending
by recorded distance (second component: `this.filteredEvents`). -/
def filterEvents (dist : ℚ → ℚ → ℚ → ℚ → ℚ) (resolve : Option SearchCoords)
    (searchInput catF : List Char) (dateF : Option ℤ) (qf : QuickFilter)
    (today monthFromNow : ℤ) (events : List Event) : List Event × List Event :=
  let query := trimWs (toLowerL searchInput)
  let isPostcodeSearch := isPostcode query
  let scEff := if !query.isEmpty && isPostcodeSearch then resolve else none
  let processed := events.map (filterStep dist query scEff catF dateF)
  let updated := processed.map Prod.fst
  let filtered := (processed.filter Prod.snd).map Prod.fst
  let filtered2 := filterEventsByDate qf today monthFromNow filtered
  let result :=
    if isPostcodeSearch && scEff.isSome then sortByKey annKey filtered2 else filtered2
  (updated, result)

/-- The `start` field of a calendar item: per the calendar-feed contract it
carries either a `date` (all-day) or a `dateTime` (timed).  Days are day
numbers; `instant` is the timestamp of the `dateTime` and `day` its local
date part. -/
inductive StartField where
  | dateOnly (day : ℤ)
  | dateTime (day : ℤ) (instant : ℤ)
deriving DecidableEq

/-- A raw calendar item, with the fields `processCalendarItems` and
`transformCalendarItem` read. -/
structure CalItem where
  summary : Option (List Char)
  description : Option (List Char)
  location : Option (List Char)
  start : StartField
  recurringEventId : Option (List Char)
deriving DecidableEq

/-- The static exclusion list (src/script.js:13-16). -/
def excludedRecurringEventIds : List (List Char) :=
  ["2scpgqhjtjh5tc33cg3jm3ik5c".toList, "30ed1sa1ev6k8kgp0ucg1mq24j_R20260105".toList]

/-- `EventMap.isExcludedRecurringEvent` (src/script.js:19-20);
`includes(undefined)` is false for a list of strings. -/
def isExcludedRecurringEvent (rid : Option (List Char)) : Bool :=
  match rid with
  | some r => excludedRecurringEventIds.contains r
  | none => false

/-- The date-only value of `new Date(item.start?.dateTime || item.start?.date)`
with hours zeroed (src/script.js:82-89). -/
def startDayOf (s : StartField) : ℤ :=
  match s with
  | .dateOnly d => d
  | .dateTime d _ => d

/-- `new Date(item.start?.dateTime || item.start.date + "T23:59:59")`
(src/script.js:83-85), as an instant: the timed start, or the last second
of an all-day event's date (86400 seconds per day). -/
def startInstantOf (s : StartField) : ℤ :=
  match s with
  | .dateOnly d => d * 86400 + 86399
  | .dateTime _ i => i

/-- `EventMap.transformCalendarItem` (src/script.js:132-165).  The first
statement sanitises the title, but the second calls `this.sanitiseHtml`
and the `EventMap` class defines no method of that name — the class only
defines `sanitiseText` (src/script.js:167), and the utils module exports
the HTML sanitiser as `sanitizeHtml` on `window.EventMapUtils`, which this
call does not consult.  `this.sanitiseHtml` is therefore `undefined` and
the call raises a `TypeError` before any event object is built, modelled
as `Except.error`. -/
def transformCalendarItem (item : CalItem) (_id : ℤ) : Except Unit Event :=
  let _title := sanitiseText ((item.summary).getD ("Unnamed Event".toList))
  .error ()

/-- The item loop of `processCalendarItems` (src/script.js:70-124) with the
accumulated result list explicit (the next id is `length + 1`).  Per item:
skip when the recurring id is excluded; skip when the start date is
strictly before today; skip `"useful information"` titles; otherwise
transform (any per-item exception is caught and the item skipped), mark
elapsed, and skip `(0, 0)` coordinates. -/
def processItemsGo (today now : ℤ) : List CalItem → List Event → List Event
  | [], acc => acc
  | item :: rest, acc =>
    if isExcludedRecurringEvent item.recurringEventId then
      processItemsGo today now rest acc
    else if startDayOf item.start < today then
      processItemsGo today now rest acc
    else if occursIn ("useful information".toList) (toLowerL ((item.summary).getD [])) then
      processItemsGo today now rest acc
    else
      match transformCalendarItem item ((acc.length : ℤ) + 1) with
      | .error _ => processItemsGo today now rest acc
      | .ok ev =>
        let ev2 := { ev with
          isElapsed := decide (startInstantOf item.start < now) &&
            decide (startDayOf item.start = today) }
        if ev2.lat = 0 && ev2.lng = 0 then processItemsGo today now rest acc
        else processItemsGo today now rest (acc ++ [ev2])

/-- `EventMap.processCalendarItems` (src/script.js:66-130): run the item
loop, then sort the surviving events ascending by date. -/
def processCalendarItems (today now : ℤ) (items : List CalItem) : List Event :=
  sortByKey (fun ev => (ev.date : ℚ)) (processItemsGo today now items [])

/-- A sample normalised event used in the concrete search scenarios. -/
def evCoffee : Event :=
  { id := 1, title := "Coffee Morning".toList, description := "chat".toList,
    location := "Hebburn".toList, category := "other".toList, categories := [],
    date := 10, lat := 54, lng := -1 }

/-- A second sample event whose location contains the searched postcode. -/
def evVenue : Event :=
  { id := 2, title := "Branch Meeting".toList, description := "monthly".toList,
    location := "NE1 1AA Newcastle".toList, category := "meeting".toList,
    categories := ["meeting".toList], date := 11, lat := 55, lng := -2 }

/-! Helper lemmas about the sanitiser. -/

theorem begins_head_ne {a c : Char} (as : List Char) (l : List Char) (h : a ≠ c) :
    begins (a :: as) (c :: l) = false := by
  simp [begins, h]

theorem replaceAllGo_keep (f : Nat) (a : Char) (as rep : List Char) :
    ∀ l : List Char, a ∉ l → replaceAllGo f (a :: as) rep l = l := by
  induction f with
  | zero => intro l _; rfl
  | succ f ih =>
    intro l hl
    cases l with
    | nil => rfl
    | cons c rest =>
      have hac : a ≠ c := fun h => hl (h ▸ List.mem_cons_self ..)
      have hrest : a ∉ rest := fun h => hl (List.mem_cons_of_mem _ h)
      simp [replaceAllGo, begins_head_ne as rest hac, ih rest hrest]

theorem replaceAll_keep (a : Char) (as rep : List Char) (l : List Char) (h : a ∉ l) :
    replaceAll (a :: as) rep l = l :=
  replaceAllGo_keep l.length a as rep l h

theorem decodeEntities_keep {l : List Char} (h : ('&') ∉ l) : decodeEntities l = l := by
  have e1 : replaceAll ("&lt;".toList) ['<'] l = l := by
    rw [show ("&lt;".toList) = '&' :: ("lt;".toList) from rfl]
    exact replaceAll_keep _ _ _ _ h
  have e2 : replaceAll ("&gt;".toList) ['>'] l = l := by
    rw [show ("&gt;".toList) = '&' :: ("gt;".toList) from rfl]
    exact replaceAll_keep _ _ _ _ h
  have e3 : replaceAll ("&amp;".toList) ['&'] l = l := by
    rw [show ("&amp;".toList) = '&' :: ("amp;".toList) from rfl]
    exact replaceAll_keep _ _ _ _ h
  have e4 : replaceAll ("&quot;".toList) ['"'] l = l := by
    rw [show ("&quot;".toList) = '&' :: ("quot;".toList) from rfl]
    exact replaceAll_keep _ _ _ _ h
  have e5 : replaceAll ("&#39;".toList) [Char.ofNat 39] l = l := by
    rw [show ("&#39;".toList) = '&' :: ("#39;".toList) from rfl]
    exact replaceAll_keep _ _ _ _ h
  rw [decodeEntities, e1, e2, e3, e4, e5]

theorem stripTagsGo_keep (f : Nat) :
    ∀ l : List Char, ('<') ∉ l → stripTagsGo f l = l := by
  induction f with
  | zero => intro l _; rfl
  | succ f ih =>
    intro l hl
    cases l with
    | nil => rfl
    | cons c rest =>
      have hc : c ≠ '<' := fun h => hl (h ▸ List.mem_cons_self ..)
      have hrest : ('<') ∉ rest := fun h => hl (List.mem_cons_of_mem _ h)
      simp [stripTagsGo, hc, ih rest hrest]

theorem stripTags_keep {l : List Char} (h : ('<') ∉ l) : stripTags l = l :=
  stripTagsGo_keep l.length l h

theorem dropThroughGt_length :
    ∀ {l r : List Char}, dropThroughGt l = some r → r.length < l.length := by
  intro l
  induction l with
  | nil => intro r h; simp [dropThroughGt] at h
  | cons c rest ih =>
    intro r h
    by_cases hc : c = '>'
    · simp [dropThroughGt, hc] at h
      subst h; simp
    · simp only [dropThroughGt, if_neg hc] at h
      exact Nat.lt_trans (ih h) (Nat.lt_succ_self _)

theorem dropThroughGt_none :
    ∀ {l : List Char}, dropThroughGt l = none → ('>') ∉ l := by
  intro l
  induction l with
  | nil => intro _; simp
  | cons c rest ih =>
    intro h
    by_cases hc : c = '>'
    · simp [dropThroughGt, hc] at h
    · simp only [dropThroughGt, if_neg hc] at h
      simp [List.mem_cons, ih h]
      exact fun h' => hc h'.symm

theorem dropThroughGt_sublist :
    ∀ {l r : List Char}, dropThroughGt l = some r → List.Sublist r l := by
  intro l
  induction l with
  | nil => intro r h; simp [dropThroughGt] at h
  | cons c rest ih =>
    intro r h
    by_cases hc : c = '>'
    · simp [dropThroughGt, hc] at h
      subst h; exact (List.Sublist.refl _).cons _
    · simp only [dropThroughGt, if_neg hc] at h
      exact (ih h).cons _

theorem stripTagsGo_sublist : ∀ (f : Nat) (l : List Char), List.Sublist (stripTagsGo f l) l := by
  intro f
  induction f with
  | zero => intro l; exact List.Sublist.refl l
  | succ f ih =>
    intro l
    cases l with
    | nil => exact List.Sublist.refl _
    | cons c rest =>
      by_cases hc : c = '<'
      · cases hg : dropThroughGt rest with
        | some r2 =>
          have h1 : stripTagsGo (f + 1) (c :: rest) = stripTagsGo f r2 := by
            simp [stripTagsGo, hc, hg]
          rw [h1]
          exact ((ih r2).trans (dropThroughGt_sublist hg)).cons _
        | none =>
          have h1 : stripTagsGo (f + 1) (c :: rest) = c :: stripTagsGo f rest := by
            simp [stripTagsGo, hc, hg]
          rw [h1]
          exact (ih rest).cons₂ _
      · have h1 : stripTagsGo (f + 1) (c :: rest) = c :: stripTagsGo f rest := by
          simp [stripTagsGo, hc]
        rw [h1]
        exact (ih rest).cons₂ _

theorem stripTags_sublist (l : List Char) : List.Sublist (stripTags l) l :=
  stripTagsGo_sublist l.length l

theorem containsTag_sublist :
    ∀ {l₁ l₂ : List Char}, List.Sublist l₁ l₂ → containsTag l₁ = true → containsTag l₂ = true := by
  intro l₁ l₂ h
  induction h with
  | slnil => exact id
  | cons a _h ih =>
    intro h1
    simp only [containsTag, Bool.or_eq_true]
    exact Or.inr (ih h1)
  | cons₂ a h ih =>
    intro h1
    simp only [containsTag, Bool.or_eq_true, Bool.and_eq_true, decide_eq_true_eq,
      List.any_eq_true] at h1 ⊢
    rcases h1 with ⟨ha, d, hd, hgt⟩ | h1
    · exact Or.inl ⟨ha, d, h.subset hd, hgt⟩
    · exact Or.inr (ih h1)

theorem containsTag_false_sublist {l₁ l₂ : List Char} (h : List.Sublist l₁ l₂)
    (h2 : containsTag l₂ = false) : containsTag l₁ = false := by
  by_contra hne
  have h1 : containsTag l₁ = true := by
    cases hc : containsTag l₁ with
    | true => rfl
    | false => exact absurd hc hne
  rw [containsTag_sublist h h1] at h2
  exact absurd h2 (by simp)

theorem stripTagsGo_no_tag :
    ∀ (f : Nat) (l : List Char), l.length ≤ f → containsTag (stripTagsGo f l) = false := by
  intro f
  induction f with
  | zero =>
    intro l hl
    have : l = [] := List.length_eq_zero.mp (Nat.le_zero.mp hl)
    subst this; rfl
  | succ f ih =>
    intro l hl
    cases l with
    | nil => rfl
    | cons c rest =>
      have hrest : rest.length ≤ f := Nat.le_of_succ_le_succ (by simpa using hl)
      by_cases hc : c = '<'
      · cases hg : dropThroughGt rest with
        | some r2 =>
          have h1 : stripTagsGo (f + 1) (c :: rest) = stripTagsGo f r2 := by
            simp [stripTagsGo, hc, hg]
          rw [h1]
          exact ih r2 (Nat.le_of_lt (Nat.lt_of_lt_of_le (dropThroughGt_length hg) hrest))
        | none =>
          have h1 : stripTagsGo (f + 1) (c :: rest) = c :: stripTagsGo f rest := by
            simp [stripTagsGo, hc, hg]
          rw [h1]
          have hng : ('>') ∉ stripTagsGo f rest := fun hm =>
            dropThroughGt_none hg ((stripTagsGo_sublist f rest).subset hm)
          simp only [containsTag, Bool.or_eq_false_iff, Bool.and_eq_false_iff]
          refine ⟨Or.inr ?_, ih rest hrest⟩
          simp only [List.any_eq_false, decide_eq_true_eq]
          intro d hd
          exact fun h => hng (h ▸ hd)
      · have h1 : stripTagsGo (f + 1) (c :: rest) = c :: stripTagsGo f rest := by
          simp [stripTagsGo, hc]
        rw [h1]
        simp only [containsTag, Bool.or_eq_false_iff, Bool.and_eq_false_iff]
        exact ⟨Or.inl (by simp [hc]), ih rest hrest⟩

theorem stripTags_no_tag (l : List Char) : containsTag (stripTags l) = false :=
  stripTagsGo_no_tag l.length l (Nat.le_refl _)

theorem dropTrailWs_sublist : ∀ l : List Char, List.Sublist (dropTrailWs l) l := by
  intro l
  induction l with
  | nil => exact List.Sublist.refl _
  | cons c rest ih =>
    simp only [dropTrailWs]
    cases h : dropTrailWs rest with
    | nil =>
      by_cases hc : isSpaceC c = true
      · simp only [if_pos hc]
        exact List.nil_sublist _
      · simp only [hc, if_false]
        exact (List.nil_sublist rest).cons₂ _
    | cons d ds =>
      rw [h] at ih
      exact ih.cons₂ _

theorem dropTrailWs_cons (c : Char) (l : List Char) :
    dropTrailWs (c :: l) =
      match dropTrailWs l with
      | [] => if isSpaceC c = true then [] else [c]
      | r => c :: r := rfl

theorem dropTrailWs_idem : ∀ l : List Char, dropTrailWs (dropTrailWs l) = dropTrailWs l := by
  intro l
  induction l with
  | nil => rfl
  | cons c rest ih =>
    rw [dropTrailWs_cons]
    cases h : dropTrailWs rest with
    | nil =>
      by_cases hc : isSpaceC c = true
      · simp [hc, dropTrailWs]
      · simp [hc, dropTrailWs]
    | cons d ds =>
      rw [h] at ih
      show dropTrailWs (c :: d :: ds) = c :: d :: ds
      rw [dropTrailWs_cons, ih]

theorem dropTrailWs_cons_shape (c : Char) (l : List Char) :
    dropTrailWs (c :: l) = [] ∨ ∃ r, dropTrailWs (c :: l) = c :: r := by
  simp only [dropTrailWs]
  cases h : dropTrailWs l with
  | nil =>
    by_cases hc : isSpaceC c = true
    · simp [hc]
    · simp [hc]
  | cons d ds => exact Or.inr ⟨d :: ds, rfl⟩

theorem dropWhile_shape (p : Char → Bool) :
    ∀ l : List Char, l.dropWhile p = [] ∨
      ∃ c r, l.dropWhile p = c :: r ∧ p c = false := by
  intro l
  induction l with
  | nil => exact Or.inl rfl
  | cons c rest ih =>
    by_cases hc : p c = true
    · simpa [List.dropWhile, hc] using ih
    · refine Or.inr ⟨c, rest, ?_, by simpa using hc⟩
      simp [List.dropWhile, hc]

theorem dropWhile_of_head_false {p : Char → Bool} {c : Char} (l : List Char)
    (h : p c = false) : (c :: l).dropWhile p = c :: l := by
  simp [List.dropWhile, h]

theorem dropWhile_sublist' (p : Char → Bool) :
    ∀ l : List Char, List.Sublist (l.dropWhile p) l := by
  intro l
  induction l with
  | nil => exact List.Sublist.refl _
  | cons c rest ih =>
    by_cases hc : p c = true
    · simp only [List.dropWhile, hc]
      exact ih.cons _
    · rw [dropWhile_of_head_false rest (by simpa using hc)]

theorem trimWs_sublist (l : List Char) : List.Sublist (trimWs l) l :=
  (dropTrailWs_sublist _).trans (dropWhile_sublist' _ l)

theorem trimWs_idem (l : List Char) : trimWs (trimWs l) = trimWs l := by
  unfold trimWs
  set m := l.dropWhile isSpaceC with hm
  have hdw : (dropTrailWs m).dropWhile isSpaceC = dropTrailWs m := by
    rcases dropWhile_shape isSpaceC l with hnil | ⟨c, r, hcr, hpc⟩
    · rw [← hm] at hnil
      rw [hnil]
      rfl
    · rw [← hm] at hcr
      rw [hcr]
      rcases dropTrailWs_cons_shape c r with h0 | ⟨r2, h2⟩
      · rw [h0]; rfl
      · rw [h2]
        exact dropWhile_of_head_false r2 hpc
  rw [hdw, dropTrailWs_idem]

theorem sanitiseText_plain {l : List Char} (h1 : ('&') ∉ l) (h2 : ('<') ∉ l) :
    sanitiseText l = trimWs l := by
  rw [sanitiseText, stripTags_keep h2, decodeEntities_keep h1]

/-! Helper lemmas about the distance sort. -/

theorem mem_sortIns {α : Type} (key : α → ℚ) (a x : α) :
    ∀ l : List α, x ∈ sortIns key a l ↔ x = a ∨ x ∈ l := by
  intro l
  induction l with
  | nil => simp [sortIns]
  | cons b rest ih =>
    by_cases h : key b < key a
    · simp only [sortIns, if_pos h, List.mem_cons, ih]
      tauto
    · simp only [sortIns, if_neg h, List.mem_cons]

theorem mem_sortByKey {α : Type} (key : α → ℚ) (x : α) :
    ∀ l : List α, x ∈ sortByKey key l ↔ x ∈ l := by
  intro l
  induction l with
  | nil => simp [sortByKey]
  | cons a rest ih =>
    simp only [sortByKey, mem_sortIns, List.mem_cons, ih]

theorem pairwise_sortIns {α : Type} (key : α → ℚ) (a : α) :
    ∀ l : List α, l.Pairwise (fun u v => key u ≤ key v) →
      (sortIns key a l).Pairwise (fun u v => key u ≤ key v) := by
  intro l
  induction l with
  | nil => intro _; simp [sortIns]
  | cons b rest ih =>
    intro hp
    rw [List.pairwise_cons] at hp
    by_cases h : key b < key a
    · simp only [sortIns, if_pos h]
      rw [List.pairwise_cons]
      refine ⟨?_, ih hp.2⟩
      intro x hx
      rcases (mem_sortIns key a x rest).mp hx with hxa | hxr
      · exact hxa ▸ le_of_lt h
      · exact hp.1 x hxr
    · simp only [sortIns, if_neg h]
      rw [List.pairwise_cons]
      refine ⟨?_, List.Pairwise.cons hp.1 hp.2⟩
      intro x hx
      rcases List.mem_cons.mp hx with hxb | hxr
      · exact hxb ▸ le_of_not_lt h
      · exact le_trans (le_of_not_lt h) (hp.1 x hxr)

theorem pairwise_sortByKey {α : Type} (key : α → ℚ) :
    ∀ l : List α, (sortByKey key l).Pairwise (fun u v => key u ≤ key v) := by
  intro l
  induction l with
  | nil => simp [sortByKey]
  | cons a rest ih =>
    exact pairwise_sortIns key a _ ih

/-! Helper lemmas about the filter pass. -/

theorem filterStep_fst_of_none (dist : ℚ → ℚ → ℚ → ℚ → ℚ) (query : List Char)
    (catF : List Char) (dateF : Option ℤ) (ev : Event) :
    (filterStep dist query none catF dateF ev).1 = ev := by
  unfold filterStep
  by_cases hq : query.isEmpty = true
  · simp [hq]
  · by_cases ht : textMatches query ev = true
    · simp [hq, ht]
    · simp [hq, ht]

theorem textMatches_set_ann (query : List Char) (ev : Event) (x : Option Ann) :
    textMatches query { ev with ann := x } = textMatches query ev := rfl

theorem mem_filterEventsByDate {qf : QuickFilter} {today monthFromNow : ℤ}
    {events : List Event} {ev : Event}
    (h : ev ∈ filterEventsByDate qf today monthFromNow events) : ev ∈ events := by
  cases qf with
  | all => exact h
  | today => exact (List.mem_filter.mp h).1
  | week => exact (List.mem_filter.mp h).1
  | month => exact (List.mem_filter.mp h).1

/-! Helper lemmas for the hash-offset bound. -/

theorem jsRem_bounds (a : ℤ) : -999 ≤ jsRem a 1000 ∧ jsRem a 1000 ≤ 999 := by
  unfold jsRem
  by_cases h : 0 ≤ a
  · rw [if_pos h]
    have h1 : 0 ≤ Int.emod a 1000 := Int.emod_nonneg a (by decide)
    have h2 : Int.emod a 1000 < 1000 := Int.emod_lt_of_pos a (by decide)
    omega
  · rw [if_neg h]
    have h1 : 0 ≤ Int.emod (-a) 1000 := Int.emod_nonneg (-a) (by decide)
    have h2 : Int.emod (-a) 1000 < 1000 := Int.emod_lt_of_pos (-a) (by decide)
    omega

theorem hashOffset_bound (h : ℤ) :
    |((jsRem h 1000 : ℚ) / 1000 - 1 / 2) * (8 / 1000)| ≤ 3 / 250 := by
  obtain ⟨h1, h2⟩ := jsRem_bounds h
  have q1 : (-999 : ℚ) ≤ (jsRem h 1000 : ℚ) := by exact_mod_cast h1
  have q2 : ((jsRem h 1000 : ℚ)) ≤ 999 := by exact_mod_cast h2
  rw [abs_le]
  constructor <;> nlinarith [q1, q2]

/-! Helper lemma for the normaliser. -/

theorem processItemsGo_acc (today now : ℤ) :
    ∀ (items : List CalItem) (acc : List Event),
      processItemsGo today now items acc = acc := by
  intro items
  induction items with
  | nil => intro acc; rfl
  | cons item rest ih =>
    intro acc
    unfold processItemsGo
    by_cases h1 : isExcludedRecurringEvent item.recurringEventId = true
    · simp only [h1, if_true]
      exact ih acc
    · simp only [h1, if_false]
      by_cases h2 : startDayOf item.start < today
      · simp only [if_pos h2]
        exact ih acc
      · simp only [if_neg h2]
        by_cases h3 :
            occursIn ("useful information".toList) (toLowerL ((item.summary).getD [])) = true
        · simp only [h3, if_true]
          exact ih acc
        · simp only [h3, if_false, transformCalendarItem]
          exact ih acc

/-- Behaviour of the first component of `filterStep` on fresh events: an
event that matches the text search (read off the returned event, whose
text fields are never changed) comes through with its annotations still
absent. -/
theorem filterStep_fst_ann (dist : ℚ → ℚ → ℚ → ℚ → ℚ) (query : List Char)
    (sc : Option SearchCoords) (catF : List Char) (dateF : Option ℤ) (ev : Event)
    (hq : query.isEmpty = false) (hev : ev.ann = none) :
    textMatches query (filterStep dist query sc catF dateF ev).1 = true →
      ((filterStep dist query sc catF dateF ev).1).ann = none := by
  by_cases ht : textMatches query ev = true
  · have h1 : (filterStep dist query sc catF dateF ev).1 = ev := by
      simp [filterStep, hq, ht]
    rw [h1]
    exact fun _ => hev
  · cases sc with
    | none =>
      have h1 : (filterStep dist query none catF dateF ev).1 = ev := by
        simp [filterStep, hq, ht]
      rw [h1]
      exact fun _ => hev
    | some s =>
      have h1 : (filterStep dist query (some s) catF dateF ev).1 =
          { ev with ann := some ⟨dist s.lat s.lng ev.lat ev.lng, radiusOr50 s, s.outwardOnly⟩ } := by
        simp [filterStep, hq, ht]
      rw [h1, textMatches_set_ann]
      intro habs
      exact absurd habs (by simp [ht])

/-! The claims. -/

/-- C1: the claim says resolution consults the Known Location table first
and returns its entry exactly — in particular `"Newcastle upon Tyne, UK"`
resolves to `{lat: 54.9783, lng: -1.6178}` exactly, with no hash offset.
`getCoordinatesForLocation` contains no such table: with geocoding
disabled (where the claimed table lookup would be the only step) it
returns the default region plus the nonzero hash offset, not the claimed
exact coordinates. -/
theorem c1_no_known_location_table :
    getCoordinatesForLocation ⟨false, none, none⟩ GeoFetch.netError
        ("Newcastle upon Tyne, UK".toList) =
      generateUniqueCoordinates ("Newcastle upon Tyne, UK".toList) ⟨54.9783, -1.6178⟩ ∧
    getCoordinatesForLocation ⟨false, none, none⟩ GeoFetch.netError
        ("Newcastle upon Tyne, UK".toList) ≠ (⟨54.9783, -1.6178⟩ : Coord) := by
  refine ⟨rfl, fun hEq => ?_⟩
  have h180 : jsRem (jsHash ("Newcastle upon Tyne, UK".toList)) 1000 = 180 := by decide
  have hlat : (getCoordinatesForLocation ⟨false, none, none⟩ GeoFetch.netError
        ("Newcastle upon Tyne, UK".toList)).lat =
      54.9783 + (((jsRem (jsHash ("Newcastle upon Tyne, UK".toList)) 1000 : ℚ)) / 1000 - 1 / 2)
        * (8 / 1000) := rfl
  have h2 := congrArg Coord.lat hEq
  rw [hlat, h180] at h2
  norm_num at h2

/-- C2: the claim says a partial-postcode query resolves with a 25 km
radius (15 km for full postcodes), in particular `"TS28"` yields 25 km.
Evaluating `geocodePostcode` (with a succeeding provider): `"ts28"` is
classified as partial (`isPartial = true`) but the returned radius is 15,
as it is for the full postcode `"sw1a 1aa"` — `searchRadius` is never
changed from its initial 15. -/
theorem c2_radius_always_fifteen :
    geocodePostcode (some ⟨1, 2⟩) (some ⟨3, 4⟩) ("ts28".toList) = some ⟨3, 4, 15, true⟩ ∧
    geocodePostcode (some ⟨1, 2⟩) (some ⟨3, 4⟩) ("sw1a 1aa".toList) =
      some ⟨3, 4, 15, false⟩ := by
  decide

/-- C3 counterexample: the claim says `sanitizeText` returns a string
containing no markup tags with the five entities decoded; on the input
`"&lt;b&gt;"` the output is `"<b>"`, which contains a markup tag (entity
decoding runs after tag stripping and reintroduces tag text). -/
theorem c3_counterexample :
    containsTag (sanitiseText ("&lt;b&gt;".toList)) = true := by
  decide

/-- C3 amended: for every input, `sanitiseText` is total, maps empty (and
null) input to the empty string, and returns whitespace-trimmed output
(trimming the output again changes nothing); it factors as trimming after
entity decoding after tag stripping, and the tag-stripping stage removes
every markup tag present in the raw input (its result never contains one);
each of the five standard entities `&lt; &gt; &amp; &quot; &#39;` decodes
to its character; and since decoding runs after stripping, tags can
reappear only through decoded entities — for inputs containing no `&` the
final output contains no markup tag. -/
theorem c3_amended :
    sanitiseText [] = [] ∧
    (∀ l : List Char, trimWs (sanitiseText l) = sanitiseText l) ∧
    (∀ l : List Char, sanitiseText l = trimWs (decodeEntities (stripTags l)) ∧
      containsTag (stripTags l) = false) ∧
    (sanitiseText ("&lt;".toList) = ['<'] ∧ sanitiseText ("&gt;".toList) = ['>'] ∧
      sanitiseText ("&amp;".toList) = ['&'] ∧ sanitiseText ("&quot;".toList) = ['"'] ∧
      sanitiseText ("&#39;".toList) = [Char.ofNat 39]) ∧
    ∀ l : List Char, ('&') ∉ l → containsTag (sanitiseText l) = false := by
  refine ⟨rfl, fun l => ?_, fun l => ⟨rfl, stripTags_no_tag l⟩, by decide, fun l h => ?_⟩
  · rw [sanitiseText]
    exact trimWs_idem _
  · have hst : ('&') ∉ stripTags l := fun hm => h ((stripTags_sublist l).subset hm)
    rw [sanitiseText, decodeEntities_keep hst]
    exact containsTag_false_sublist (trimWs_sublist _) (stripTags_no_tag l)

/-- C3 witness: the amended theorem's conditional conjunct applied at the
concrete input `"veterans"`. -/
theorem c3_witness :
    (('&') ∉ ("veterans".toList)) ∧
      containsTag (sanitiseText ("veterans".toList)) = false :=
  ⟨by decide, c3_amended.2.2.2.2 ("veterans".toList) (by decide)⟩

/-- C4 counterexample: the claim says `sanitizeText` is idempotent for all
strings, including strings containing literal HTML entities; on
`"&amp;lt;"` one application yields `"&lt;"` and a second yields `"<"`. -/
theorem c4_counterexample :
    sanitiseText (sanitiseText ("&amp;lt;".toList)) ≠ sanitiseText ("&amp;lt;".toList) := by
  decide

/-- C4 amended: `sanitiseText` is idempotent on inputs that contain no `&`
and no `<` (no entity to decode and no tag text): on such inputs it is
trimming, which is idempotent.  Inputs with entities break idempotence, as
the counterexample shows. -/
theorem c4_amended (l : List Char) (h1 : ('&') ∉ l) (h2 : ('<') ∉ l) :
    sanitiseText (sanitiseText l) = sanitiseText l := by
  have e1 : sanitiseText l = trimWs l := sanitiseText_plain h1 h2
  have hs := trimWs_sublist l
  have h1' : ('&') ∉ trimWs l := fun h => h1 (hs.subset h)
  have h2' : ('<') ∉ trimWs l := fun h => h2 (hs.subset h)
  rw [e1, sanitiseText_plain h1' h2', trimWs_idem]

/-- C4 witness: the amended theorem applied at the concrete input
`"  hi  "`. -/
theorem c4_witness :
    (('&') ∉ ("  hi  ".toList)) ∧ (('<') ∉ ("  hi  ".toList)) ∧
      sanitiseText (sanitiseText ("  hi  ".toList)) = sanitiseText ("  hi  ".toList) :=
  ⟨by decide, by decide, c4_amended ("  hi  ".toList) (by decide) (by decide)⟩

/-- C5 counterexample: the claim bounds the hash offset by 0.004° per axis
for every location string and base; the string `"aaaaaaa"` hashes to the
negative value -1236860927, and the JS remainder of a negative hash is
negative, giving a latitude offset of -0.011416 whose magnitude exceeds
0.004. -/
theorem c5_counterexample :
    ¬ |(generateUniqueCoordinates ("aaaaaaa".toList) ⟨0, 0⟩).lat - (0 : ℚ)| ≤ 4 / 1000 := by
  have hrem : jsRem (jsHash ("aaaaaaa".toList)) 1000 = -927 := by decide
  have hlat : (generateUniqueCoordinates ("aaaaaaa".toList) ⟨0, 0⟩).lat =
      0 + (((jsRem (jsHash ("aaaaaaa".toList)) 1000 : ℚ)) / 1000 - 1 / 2) * (8 / 1000) := rfl
  intro habs
  rw [abs_le, hlat, hrem] at habs
  have hlow := habs.1
  norm_num at hlow

/-- C5 amended: the hash offset is bounded by 0.012° (= 3/250) in magnitude
on each axis: the remainder lies in [-999, 999], so the offset lies in
[-1.499, 0.499] · 0.008.  The claimed 0.004 bound holds only for
non-negative hash values. -/
theorem c5_amended (location : List Char) (baseCoords : Coord) :
    |(generateUniqueCoordinates location baseCoords).lat - baseCoords.lat| ≤ 3 / 250 ∧
    |(generateUniqueCoordinates location baseCoords).lng - baseCoords.lng| ≤ 3 / 250 := by
  unfold generateUniqueCoordinates
  constructor
  · simpa [add_sub_cancel_left] using hashOffset_bound (jsHash location)
  · simpa [add_sub_cancel_left] using hashOffset_bound (jsShr10 (jsHash location))

/-- C6: location resolution is total and never propagates an error: the
result type of `getCoordinatesForLocation` is a coordinate (every thrown
geocoding error is caught in the source), and whenever geocoding is
unconfigured or the geocoding call fails — network error, HTTP error,
`REQUEST_DENIED` (auth), `OVER_QUERY_LIMIT` (quota), `ZERO_RESULTS`, or
any unexpected status, all of which `geocodeWithGoogle` turns into
`Except.error` — resolution falls through to the deterministic hash
fallback on the default region. -/
theorem c6_resolution_total_fallback (cfg : Config) (fetch : GeoFetch) (location : List Char)
    (h : geocodingConfigured cfg = false ∨ ∃ e, geocodeWithGoogle fetch = .error e) :
    getCoordinatesForLocation cfg fetch location =
      generateUniqueCoordinates location (defaultRegionOf cfg) := by
  unfold getCoordinatesForLocation
  rcases h with h | ⟨e, he⟩
  · simp [h]
  · by_cases hc : geocodingConfigured cfg = true
    · simp [hc, he]
    · simp [hc]

/-- C6 witness: the theorem applied at a concrete configured geocoder whose
fetch fails with a network error. -/
theorem c6_witness :
    (geocodingConfigured ⟨true, some ("k".toList), none⟩ = false ∨
      ∃ e, geocodeWithGoogle GeoFetch.netError = .error e) ∧
    getCoordinatesForLocation ⟨true, some ("k".toList), none⟩ GeoFetch.netError
        ("Hebburn".toList) =
      generateUniqueCoordinates ("Hebburn".toList)
        (defaultRegionOf ⟨true, some ("k".toList), none⟩) :=
  ⟨Or.inr ⟨_, rfl⟩,
    c6_resolution_total_fallback ⟨true, some ("k".toList), none⟩ GeoFetch.netError
      ("Hebburn".toList) (Or.inr ⟨_, rfl⟩)⟩

/-- C7: categorising title `"Clay Pigeon Shooting Morning"` with
description `"breakfast provided before shoot"` yields exactly
`{tags: ["sport"], primary: "sport"}` — the breakfast-club rule is
suppressed by its own `clay pigeon` exclusion and the sport rule fires. -/
theorem c7_clay_pigeon_scenario :
    categorizeEvent ("Clay Pigeon Shooting Morning".toList)
        ("breakfast provided before shoot".toList) =
      ⟨["sport".toList], "sport".toList⟩ := by
  decide

/-- C8: the claim says the normaliser keeps items dated today (dropping
only strictly past dates).  In fact `transformCalendarItem` calls the
nonexistent method `this.sanitiseHtml`, so every item that passes the date
check throws and is caught-and-dropped: `processCalendarItems` returns the
empty list on every input, for every `today` and `now` — today's items are
never kept.  (The date-drop inequality itself holds only vacuously.) -/
theorem c8_normaliser_drops_everything (today now : ℤ) (items : List CalItem) :
    processCalendarItems today now items = [] := by
  unfold processCalendarItems
  rw [processItemsGo_acc]
  rfl

/-- C9 counterexample: the claim says the transient search-annotation
fields are cleared or overwritten on the next search, so after a filter
pass whose query is not a location search no event retains an annotation
from an earlier pass.  Running a postcode pass (`"NE1 1AA"`, distance 99,
outside the 15 km radius) annotates the event in `this.events`; a
subsequent plain-text pass (`"coffee"`) leaves that annotation in place —
the code never deletes the fields. -/
theorem c9_counterexample :
    ((filterEvents (fun _ _ _ _ => 0) none ("coffee".toList) [] none QuickFilter.all 0 0
        ((filterEvents (fun _ _ _ _ => 99) (some ⟨0, 0, 15, false⟩) ("NE1 1AA".toList) []
            none QuickFilter.all 0 0 [evCoffee]).1)).1).all
      (fun ev => ev.ann.isNone) = false := by
  decide

/-- C9 amended: the transient fields are set only during a postcode search,
but they are never cleared: a filter pass whose query is not a postcode
leaves every stored event — annotations included — exactly as it was, so
annotations from an earlier location search persist across later
non-location passes. -/
theorem c9_amended (dist : ℚ → ℚ → ℚ → ℚ → ℚ) (resolve : Option SearchCoords)
    (searchInput catF : List Char) (dateF : Option ℤ) (qf : QuickFilter)
    (today monthFromNow : ℤ) (events : List Event)
    (h : isPostcode (trimWs (toLowerL searchInput)) = false) :
    (filterEvents dist resolve searchInput catF dateF qf today monthFromNow events).1 =
      events := by
  simp only [filterEvents, h, Bool.and_false, if_neg Bool.false_ne_true, List.map_map]
  have : (Prod.fst ∘ filterStep dist (trimWs (toLowerL searchInput)) none catF dateF) = id := by
    funext ev
    exact filterStep_fst_of_none dist _ catF dateF ev
  rw [this, List.map_id]

/-- C9 witness: the amended theorem applied to the plain-text query
`"coffee"` over a one-event store. -/
theorem c9_witness :
    isPostcode (trimWs (toLowerL ("coffee".toList))) = false ∧
    (filterEvents (fun _ _ _ _ => 0) none ("coffee".toList) [] none QuickFilter.all 0 0
        [evCoffee]).1 = [evCoffee] :=
  ⟨by decide,
    c9_amended (fun _ _ _ _ => 0) none ("coffee".toList) [] none QuickFilter.all 0 0
      [evCoffee] (by decide)⟩

/-- C10: during a postcode search over fresh events (no annotation from an
earlier pass), an event included because it matches the plain substring
text search receives no `_searchDistance` annotation, and the distance
sort — which substitutes 0 for a missing distance — orders the result
ascending by that key, so no event with a positive recorded distance ever
precedes an annotation-free (text-matched) event. -/
theorem c10_text_match_orders_first (dist : ℚ → ℚ → ℚ → ℚ → ℚ)
    (resolve : Option SearchCoords) (sc : SearchCoords) (searchInput catF : List Char)
    (dateF : Option ℤ) (qf : QuickFilter) (today monthFromNow : ℤ) (events : List Event)
    (hfresh : ∀ ev ∈ events, ev.ann = none)
    (hpc : isPostcode (trimWs (toLowerL searchInput)) = true)
    (hres : resolve = some sc) :
    (∀ ev ∈ (filterEvents dist resolve searchInput catF dateF qf today monthFromNow events).2,
        textMatches (trimWs (toLowerL searchInput)) ev = true → ev.ann = none) ∧
    ((filterEvents dist resolve searchInput catF dateF qf today monthFromNow events).2).Pairwise
      (fun a b => b.ann = none → ¬ 0 < annKey a) := by
  subst hres
  set q := trimWs (toLowerL searchInput) with hq
  have hne : q.isEmpty = false := by
    cases hcase : q with
    | nil =>
      rw [hcase] at hpc
      exact absurd hpc (by decide)
    | cons c rest => rfl
  have hout : (filterEvents dist (some sc) searchInput catF dateF qf today monthFromNow
        events).2 =
      sortByKey annKey (filterEventsByDate qf today monthFromNow
        (((events.map (filterStep dist q (some sc) catF dateF)).filter Prod.snd).map
          Prod.fst)) := by
    simp only [filterEvents, ← hq, hne, hpc, Bool.not_false, Bool.true_and, if_pos,
      Option.isSome_some, Bool.and_true, if_true]
  constructor
  · intro ev hmem htext
    rw [hout] at hmem
    have hm2 := (mem_sortByKey annKey ev _).mp hmem
    have hm3 := mem_filterEventsByDate hm2
    rcases List.mem_map.mp hm3 with ⟨p, hpmem, hp1⟩
    rcases List.mem_filter.mp hpmem with ⟨hpin, _hp2⟩
    rcases List.mem_map.mp hpin with ⟨ev0, hev0, hstep⟩
    subst hp1
    subst hstep
    exact filterStep_fst_ann dist q (some sc) catF dateF ev0 hne (hfresh ev0 hev0) htext
  · rw [hout]
    refine (pairwise_sortByKey annKey _).imp ?_
    intro a b hab hbnone
    have hb0 : annKey b = 0 := by simp [annKey, hbnone]
    rw [hb0] at hab
    exact not_lt.mpr hab

/-- C10 witness: the theorem applied to a concrete postcode search over two
fresh events, one matching the text search and one within radius. -/
theorem c10_witness :
    (∀ ev ∈ [evVenue, evCoffee], ev.ann = none) ∧
    isPostcode (trimWs (toLowerL ("NE1 1AA".toList))) = true ∧
    ((∀ ev ∈ (filterEvents (fun _ _ _ _ => 5) (some ⟨0, 0, 15, false⟩) ("NE1 1AA".toList) []
          none QuickFilter.all 0 0 [evVenue, evCoffee]).2,
        textMatches (trimWs (toLowerL ("NE1 1AA".toList))) ev = true → ev.ann = none) ∧
      ((filterEvents (fun _ _ _ _ => 5) (some ⟨0, 0, 15, false⟩) ("NE1 1AA".toList) []
          none QuickFilter.all 0 0 [evVenue, evCoffee]).2).Pairwise
        (fun a b => b.ann = none → ¬ 0 < annKey a)) :=
  ⟨by decide, by decide,
    c10_text_match_orders_first (fun _ _ _ _ => 5) (some ⟨0, 0, 15, false⟩) ⟨0, 0, 15, false⟩
      ("NE1 1AA".toList) [] none QuickFilter.all 0 0 [evVenue, evCoffee] (by decide)
      (by decide) rfl⟩

end EventMap
